import Mathlib

/-!
# Verification of the Afhel handle-based HE facade (`src/Afhel/Afhel.cpp`)

Shallow embedding of the Afhel layer: the ciphertext handle registry
(`boost::unordered_map<string, Ctxt> ctxtMap`), the operation facade built
on it, the parameter derivation in `keyGen`, and the `saveEnv`/`restoreEnv`
lifecycle operations.  The external HElib engine (ciphertext algebra,
encoder, parameter search, floating-point heuristics) is abstracted: its
operations appear as function parameters, so every theorem holds for every
engine; a small concrete sample engine is provided to evaluate statements on
concrete inputs.
-/

namespace Afhel

/-- A ciphertext, as seen through the engine interface: an opaque algebraic
object; for the slot-level claims we record the slot vector it decrypts to.
(`Ctxt` in HElib; Afhel never inspects its internals.) -/
structure Ctxt where
  slots : List Int
deriving DecidableEq, Repr

/-- The error raised by `boost::unordered_map::at` on a missing key
(`std::out_of_range`), called `HandleNotFound` / `NotFound` in the spec. -/
inductive HErr where
  | HandleNotFound
deriving DecidableEq, Repr

/-- The ciphertext handle registry `ctxtMap`: an association list from string
handles to ciphertexts, mirroring `boost::unordered_map<string, Ctxt>`.
Keys are unique at insertion time because `insert` never overwrites. -/
abbrev Reg := List (String × Ctxt)

/-- `ctxtMap.at(k)`: lookup; `none` models the thrown `std::out_of_range`. -/
def atMap (m : Reg) (k : String) : Option Ctxt :=
  match m with
  | [] => none
  | (k', c) :: rest => if k' = k then some c else atMap rest k

/-- `ctxtMap.find(k) != ctxtMap.end()`. -/
def containsKey (m : Reg) (k : String) : Bool :=
  (atMap m k).isSome

/-- `ctxtMap.insert(make_pair(k, c))`: `boost::unordered_map::insert` adds the
pair only when the key is absent; on an existing key it is a no-op. -/
def insertPair (m : Reg) (k : String) (c : Ctxt) : Reg :=
  if containsKey m k then m else (k, c) :: m

/-- In-place mutation of the entry at `k` (writing through the reference
returned by `ctxtMap.at(k)`); entries at other keys are untouched, and a
missing key is never written (`at` would have thrown first). -/
def updateAt (m : Reg) (k : String) (f : Ctxt → Ctxt) : Reg :=
  match m with
  | [] => []
  | (k', c) :: rest =>
      if k' = k then (k', f c) :: updateAt rest k f
      else (k', c) :: updateAt rest k f

/-- `ctxtMap.erase(k)` on a present key: removes the entry bound to `k`
(keys are unique, so removing every match coincides with removing the one
entry the C++ map holds). -/
def eraseKey (m : Reg) (k : String) : Reg :=
  match m with
  | [] => []
  | (k', c) :: rest =>
      if k' = k then eraseKey rest k else (k', c) :: eraseKey rest k

/-- `Afhel::store`: derives the identifier from the millisecond wall-clock
timestamp (`ms = tv_sec*1000 + tv_usec/1000`, `lexical_cast<string>`), inserts
a copy of the ciphertext under it, and returns the identifier.  The timestamp
is an explicit input here. -/
def store (m : Reg) (ms : Nat) (c : Ctxt) : String × Reg :=
  let id1 := toString ms
  (id1, insertPair m id1 c)

/-- `Afhel::set` (alias): copies the ciphertext under `id1`
(`Ctxt ctxt = ctxtMap.at(id1)`) and stores the copy under a
timestamp-generated identifier; `at` throws `HandleNotFound` when `id1` is
unbound. -/
def set (m : Reg) (id1 : String) (ms : Nat) : Except HErr (String × Reg) :=
  match atMap m id1 with
  | some c => .ok (store m ms c)
  | none => .error .HandleNotFound

/-- `Afhel::retrieve`: returns a copy of the ciphertext (`ctxtMap.at(id1)`),
failing with `HandleNotFound` when the handle is unbound. -/
def retrieve (m : Reg) (id1 : String) : Except HErr Ctxt :=
  match atMap m id1 with
  | some c => .ok c
  | none => .error .HandleNotFound

/-- `Afhel::replace`: overwrites the entry at `id1` only when
`ctxtMap.find(id1) != ctxtMap.end()`; silently a no-op otherwise. -/
def replace (m : Reg) (id1 : String) (c : Ctxt) : Reg :=
  if containsKey m id1 then updateAt m id1 (fun _ => c) else m

/-- `Afhel::erase`: removes the entry when present; no-op otherwise. -/
def erase (m : Reg) (id1 : String) : Reg :=
  if containsKey m id1 then eraseKey m id1 else m

/-- The external HE engine's ciphertext algebra consumed by the facade
(HElib's `Ctxt` methods and `EncryptedArray` slot operations); the facade
never inspects these, so they are abstract function parameters. -/
structure HEngine where
  addCtxt : Ctxt → Ctxt → Bool → Ctxt
  multiplyBy : Ctxt → Ctxt → Ctxt
  multiplyBy2 : Ctxt → Ctxt → Ctxt → Ctxt
  squareC : Ctxt → Ctxt
  cubeC : Ctxt → Ctxt
  negateC : Ctxt → Ctxt
  equalsToC : Ctxt → Ctxt → Bool → Bool
  totalSumsC : Ctxt → Ctxt
  rotateC : Ctxt → Int → Ctxt
  shiftC : Ctxt → Int → Ctxt

/-- `Afhel::add`: `ctxtMap.at(id1).addCtxt(ctxtMap.at(id2), negative)` —
resolves both handles (a missing one throws), then mutates the entry at
`id1` in place. The pair is (call result, registry after the call). -/
def add (eng : HEngine) (m : Reg) (id1 id2 : String) (negative : Bool) :
    Except HErr Unit × Reg :=
  match atMap m id1, atMap m id2 with
  | some c1, some c2 => (.ok (), updateAt m id1 (fun _ => eng.addCtxt c1 c2 negative))
  | _, _ => (.error .HandleNotFound, m)

/-- `Afhel::mult`: `ctxtMap.at(id1).multiplyBy(ctxtMap.at(id2))`. -/
def mult (eng : HEngine) (m : Reg) (id1 id2 : String) : Except HErr Unit × Reg :=
  match atMap m id1, atMap m id2 with
  | some c1, some c2 => (.ok (), updateAt m id1 (fun _ => eng.multiplyBy c1 c2))
  | _, _ => (.error .HandleNotFound, m)

/-- `Afhel::mult3`: `ctxtMap.at(id1).multiplyBy2(ctxtMap.at(id2), ctxtMap.at(id3))`. -/
def mult3 (eng : HEngine) (m : Reg) (id1 id2 id3 : String) : Except HErr Unit × Reg :=
  match atMap m id1, atMap m id2, atMap m id3 with
  | some c1, some c2, some c3 =>
      (.ok (), updateAt m id1 (fun _ => eng.multiplyBy2 c1 c2 c3))
  | _, _, _ => (.error .HandleNotFound, m)

/-- `Afhel::scalarProd`: multiplies the entry at `id1` by the entry at `id2`,
then applies the full-slot `totalSums` reduction to the entry at `id1`; the
`partitionSize` argument appears in the signature and is never read. -/
def scalarProd (eng : HEngine) (m : Reg) (id1 id2 : String) (partitionSize : Int) :
    Except HErr Unit × Reg :=
  match atMap m id1, atMap m id2 with
  | some c1, some c2 =>
      let m1 := updateAt m id1 (fun _ => eng.multiplyBy c1 c2)
      match atMap m1 id1 with
      | some c1' => (.ok (), updateAt m1 id1 (fun _ => eng.totalSumsC c1'))
      | none => (.error .HandleNotFound, m1)
  | _, _ => (.error .HandleNotFound, m)

/-- `Afhel::square`: `ctxtMap.at(id1).square()`. -/
def square (eng : HEngine) (m : Reg) (id1 : String) : Except HErr Unit × Reg :=
  match atMap m id1 with
  | some c1 => (.ok (), updateAt m id1 (fun _ => eng.squareC c1))
  | none => (.error .HandleNotFound, m)

/-- `Afhel::cube`: `ctxtMap.at(id1).cube()`. -/
def cube (eng : HEngine) (m : Reg) (id1 : String) : Except HErr Unit × Reg :=
  match atMap m id1 with
  | some c1 => (.ok (), updateAt m id1 (fun _ => eng.cubeC c1))
  | none => (.error .HandleNotFound, m)

/-- `Afhel::negate`: `ctxtMap.at(id1).negate()`. -/
def negate (eng : HEngine) (m : Reg) (id1 : String) : Except HErr Unit × Reg :=
  match atMap m id1 with
  | some c1 => (.ok (), updateAt m id1 (fun _ => eng.negateC c1))
  | none => (.error .HandleNotFound, m)

/-- `Afhel::equalsTo`: `ctxtMap.at(id1).equalsTo(ctxtMap.at(id2), comparePkeys)`;
read-only, returns the engine's structural-equality verdict. -/
def equalsTo (eng : HEngine) (m : Reg) (id1 id2 : String) (comparePkeys : Bool) :
    Except HErr Bool × Reg :=
  match atMap m id1, atMap m id2 with
  | some c1, some c2 => (.ok (eng.equalsToC c1 c2 comparePkeys), m)
  | _, _ => (.error .HandleNotFound, m)

/-- `Afhel::rotate`: `ea->rotate(ctxtMap.at(id1), c)` — cyclic slot rotation
applied in place to the entry at `id1`. -/
def rotate (eng : HEngine) (m : Reg) (id1 : String) (c : Int) : Except HErr Unit × Reg :=
  match atMap m id1 with
  | some c1 => (.ok (), updateAt m id1 (fun _ => eng.rotateC c1 c))
  | none => (.error .HandleNotFound, m)

/-- `Afhel::shift`: `ea->shift(ctxtMap.at(id1), c)` — non-cyclic slot shift
applied in place to the entry at `id1`. -/
def shift (eng : HEngine) (m : Reg) (id1 : String) (c : Int) : Except HErr Unit × Reg :=
  match atMap m id1 with
  | some c1 => (.ok (), updateAt m id1 (fun _ => eng.shiftC c1 c))
  | none => (.error .HandleNotFound, m)

/-- A concrete sample engine over the slot vectors, used only to evaluate
statements at concrete inputs; the theorems quantify over every engine. -/
def sampleEngine : HEngine where
  addCtxt c1 c2 neg :=
    ⟨List.zipWith (fun a b => if neg then a - b else a + b) c1.slots c2.slots⟩
  multiplyBy c1 c2 := ⟨List.zipWith (· * ·) c1.slots c2.slots⟩
  multiplyBy2 c1 c2 c3 :=
    ⟨List.zipWith (· * ·) (List.zipWith (· * ·) c1.slots c2.slots) c3.slots⟩
  squareC c1 := ⟨c1.slots.map (fun a => a * a)⟩
  cubeC c1 := ⟨c1.slots.map (fun a => a * a * a)⟩
  negateC c1 := ⟨c1.slots.map (fun a => -a)⟩
  equalsToC c1 c2 _ := c1.slots = c2.slots
  totalSumsC c1 := ⟨c1.slots.map (fun _ => c1.slots.sum)⟩
  rotateC c1 k := ⟨c1.slots.rotate k.toNat⟩
  shiftC c1 _ := c1

/-! ## Encryption/decryption boundary

The packing encoder (`EncryptedArray* ea`) belongs to the external engine.
Its contract is taken from the spec's interface description: encode-encrypt
packs the caller's values into the `nslots` plaintext slots of a fresh
ciphertext, and decrypt-decode recovers the slot vector.  `Afhel::decrypt`
itself allocates `vector<long> res(nslots, 0)` and lets `ea->decrypt` fill
it, so the decrypted sequence always has length `nslots`. -/

/-- Modelled from the spec: the engine's encode-encrypt
(`ea->encrypt(cyphertext, *publicKey, plaintext)`), which packs the values
into the `nslots` slot positions (unfilled slots hold zero). -/
def eaEncrypt (nslots : Nat) (v : List Int) : Ctxt :=
  ⟨v ++ List.replicate (nslots - v.length) 0⟩

/-- Modelled from the spec: the engine's decrypt-decode
(`ea->decrypt(ctxt, *secretKey, res)`) writing into the caller's
`res(nslots, 0)` buffer: the result is the ciphertext's slot vector, sized
to `nslots` (zero-filled when the ciphertext carries fewer slots). -/
def eaDecrypt (nslots : Nat) (c : Ctxt) : List Int :=
  c.slots.take nslots ++ List.replicate (nslots - c.slots.length) 0

/-- `Afhel::encrypt`: encodes and encrypts the plaintext vector under the
public key and stores the result (`store` generates the timestamp handle,
supplied here as `ms`), returning the handle and the new registry. -/
def encrypt (nslots : Nat) (m : Reg) (ms : Nat) (plaintext : List Int) :
    String × Reg :=
  store m ms (eaEncrypt nslots plaintext)

/-- `Afhel::decrypt`: decrypts the ciphertext at `id1` (via `ctxtMap.at`,
which throws `HandleNotFound` on an unbound handle) into a length-`nslots`
sequence. -/
def decrypt (nslots : Nat) (m : Reg) (id1 : String) : Except HErr (List Int) :=
  match atMap m id1 with
  | some c => .ok (eaDecrypt nslots c)
  | none => .error .HandleNotFound

/-! ## Parameter derivation in `Afhel::keyGen`

`keyGen(p, r, c, w, d, sec, L, m, R, s, gens, ords)` fills the two optional
parameters before any context construction:

* `if (L == -1) { L = 3*R+3; if (p > 2 || r > 1) { L += <extra>; } }` where
  `<extra>` is `R * 2*ceil(log((double)p)*r*3)/(log(2.0)*FHE_p2Size) + 1`, a
  double-precision expression in `p`, `r`, `R` and the engine's fixed
  bit-size constant `FHE_p2Size`.  The floating-point magnitude is
  abstracted as an uninterpreted function `extra p r R`; only its argument
  list and the gating condition are part of the embedding.
* `if (m == -1) { m = FindM(sec, L, c, p, d, s, 0, 0); }` — the engine's
  parameter search, abstracted as `findM`, called with the possibly-derived
  `L`.

It then calls `FHEcontext(m, p, r, gens, ords)` and
`buildModChain(*context, L, c)` with the resulting values, with no further
validation. -/

/-- The `L` derivation step of `keyGen`: `extra` abstracts the floating-point
expression `R * 2*ceil(log((double)p)*r*3)/(log(2.0)*FHE_p2Size) + 1`, a
function of `p`, `r`, `R` only. -/
def deriveL (extra : Int → Int → Int → Int) (L p r R : Int) : Int :=
  if L = -1 then
    if p > 2 ∨ r > 1 then 3 * R + 3 + extra p r R else 3 * R + 3
  else L

/-- The `m` derivation step of `keyGen`: `findM` abstracts HElib's
`FindM(sec, L, c, p, d, s, 0, 0)`; `L` is the value after `deriveL`. -/
def deriveM (findM : Int → Int → Int → Int → Int → Int → Int)
    (m sec L c p d s : Int) : Int :=
  if m = -1 then findM sec L c p d s else m

/-- The arguments `keyGen` hands to the external context constructor
`FHEcontext(m, p, r, gens, ords)` and to `buildModChain(*context, L, c)`. -/
structure KeyGenCalls where
  contextM : Int
  contextP : Int
  contextR : Int
  modChainL : Int
  modChainC : Int
deriving DecidableEq, Repr

/-- `Afhel::keyGen`'s parameter flow: derive `L`, then `m` (using the derived
`L`), then pass both through to context creation and modulus-chain
construction. -/
def keyGenCalls (extra : Int → Int → Int → Int)
    (findM : Int → Int → Int → Int → Int → Int → Int)
    (p r c w d sec L m R s : Int) : KeyGenCalls :=
  let L1 := deriveL extra L p r R
  let m1 := deriveM findM m sec L1 c p d s
  ⟨m1, p, r, L1, c⟩

/-! ## Lifecycle: `saveEnv` and `restoreEnv`

Both are sequences of calls into the external engine and the file system,
wrapped in `try { ... } catch (exception& e) { res = 0; }`.  Each external
step either succeeds or throws; an execution of the body is described by a
record telling which steps succeed and what values the successful steps
produce.  The manager's live fields are `context`, `secretKey`, `publicKey`,
`ea` and `nslots`; the identities of the first four heap objects are
abstracted as natural numbers. -/

/-- The manager's live in-memory fields: `FHEcontext* context`,
`FHESecKey* secretKey`, `FHEPubKey* publicKey`, `EncryptedArray* ea`,
`long nslots`. -/
structure EnvState where
  context : Nat
  secretKey : Nat
  publicKey : Nat
  ea : Nat
  nslots : Nat
deriving DecidableEq, Repr

/-- Outcome of one external step inside a `try` block: it returns normally
or throws a `std::exception`-derived error (caught by the handler). -/
inductive StepRes where
  | ok
  | throws
deriving DecidableEq, Repr

/-- One execution of the `saveEnv` body: whether the output stream opened
(`keyFile.is_open()`), and the outcome of each serialization step
(`writeContextBase`, `keyFile << *context`, `keyFile << *secretKey`). -/
structure SaveRun where
  openOk : Bool
  writeBase : StepRes
  writeContext : StepRes
  writeSecKey : StepRes
deriving DecidableEq, Repr

/-- What `saveEnv` does from the caller's point of view: return a boolean,
or terminate the process (`assert` failure calls `abort`, which no `catch`
intercepts). -/
inductive SaveOutcome where
  | ret (res : Bool)
  | aborted
deriving DecidableEq, Repr

/-- `Afhel::saveEnv`: opens the file, `assert(keyFile.is_open())`, then
writes the context base, the context and the secret key; any step that
throws is caught and turns the result into `false`.  A file that fails to
open trips the `assert`, which aborts rather than throwing. -/
def saveEnv (run : SaveRun) : SaveOutcome :=
  if !run.openOk then .aborted
  else if run.writeBase = .throws then .ret false
  else if run.writeContext = .throws then .ret false
  else if run.writeSecKey = .throws then .ret false
  else .ret true

/-- One execution of the `restoreEnv` body, in the order the statements run:
the five fallible read/construction steps (`readContextBase`, the
`FHEcontext tmpContext(...)` constructor, the `FHESecKey tmpSecretKey(...)`
constructor, `keyFile >> tmpContext`, `keyFile >> tmpSecretKey`) with the
objects they produce, then the two fallible reconstruction steps
(`context->alMod.getFactorsOverZZ()[0]` and `new EncryptedArray(*context, G)`)
with the encoder and slot count they produce. -/
structure RestoreRun where
  readBase : StepRes
  ctorContext : StepRes
  ctorSecKey : StepRes
  readContext : StepRes
  readSecKey : StepRes
  tmpContext : Nat
  tmpSecretKey : Nat
  factorStep : StepRes
  eaStep : StepRes
  newEa : Nat
  newNslots : Nat
deriving DecidableEq, Repr

/-- `Afhel::restoreEnv`, statement by statement: the five deserialization
steps run first, touching only locals; then the live fields `context` and
`secretKey` are reassigned; then the defining polynomial is extracted and a
new `EncryptedArray` is built (either can throw — after the live pointers
were already overwritten); finally `publicKey` (upcast of the new secret
key) and `nslots` are refreshed.  Any throw is caught and the function
returns `false` with whatever state the fields are in at that point. -/
def restoreEnv (s : EnvState) (run : RestoreRun) : Bool × EnvState :=
  if run.readBase = .throws then (false, s)
  else if run.ctorContext = .throws then (false, s)
  else if run.ctorSecKey = .throws then (false, s)
  else if run.readContext = .throws then (false, s)
  else if run.readSecKey = .throws then (false, s)
  else
    let s2 := { s with context := run.tmpContext, secretKey := run.tmpSecretKey }
    if run.factorStep = .throws then (false, s2)
    else if run.eaStep = .throws then (false, s2)
    else
      (true, { s2 with ea := run.newEa, publicKey := run.tmpSecretKey,
                       nslots := run.newNslots })

/-! ## Concrete fixtures for evaluating statements -/

/-- A sample ciphertext. -/
def cA : Ctxt := ⟨[1, 2]⟩

/-- A second sample ciphertext. -/
def cB : Ctxt := ⟨[3, 4]⟩

/-- A sample registry with two bound handles. -/
def demoReg : Reg := [("100", cA), ("200", cB)]

/-! ## Registry lemmas -/

theorem containsKey_false_iff (m : Reg) (k : String) :
    containsKey m k = false ↔ atMap m k = none := by
  unfold containsKey
  cases atMap m k <;> simp

theorem atMap_updateAt_self (m : Reg) (k : String) (f : Ctxt → Ctxt) :
    atMap (updateAt m k f) k = (atMap m k).map f := by
  induction m with
  | nil => rfl
  | cons p rest ih =>
    obtain ⟨k', c⟩ := p
    by_cases hp : k' = k <;> simp [updateAt, atMap, hp, ih]

theorem atMap_updateAt_ne (m : Reg) (k k' : String) (f : Ctxt → Ctxt)
    (hne : k ≠ k') : atMap (updateAt m k f) k' = atMap m k' := by
  induction m with
  | nil => rfl
  | cons p rest ih =>
    obtain ⟨k0, c⟩ := p
    by_cases hp : k0 = k
    · subst hp
      simp [updateAt, atMap, hne, ih]
    · by_cases hq : k0 = k' <;> simp [updateAt, atMap, hp, hq, hne.symm, ih]

theorem atMap_eraseKey_self (m : Reg) (k : String) :
    atMap (eraseKey m k) k = none := by
  induction m with
  | nil => rfl
  | cons p rest ih =>
    obtain ⟨k', c⟩ := p
    by_cases hp : k' = k <;> simp [eraseKey, hp, atMap, ih]

theorem insertPair_fresh (m : Reg) (k : String) (c : Ctxt)
    (h : containsKey m k = false) : insertPair m k c = (k, c) :: m := by
  simp [insertPair, h]

theorem eaDecrypt_eaEncrypt (n : Nat) (v : List Int) :
    eaDecrypt n (eaEncrypt n v) =
      v.take n ++ List.replicate (n - v.length) 0 := by
  unfold eaDecrypt eaEncrypt
  rcases le_or_lt v.length n with h | h
  · have hlen : (v ++ List.replicate (n - v.length) (0 : Int)).length = n := by
      simp; omega
    rw [List.take_of_length_le (le_of_eq hlen), hlen, Nat.sub_self,
      List.replicate_zero, List.append_nil, List.take_of_length_le h]
  · have h0 : n - v.length = 0 := by omega
    simp [h0]

/-! ## Claim theorems -/

/-- C8: for every registry state and every pair of bound handles, the
registry resulting from `scalarProd(h1, h2, k)` is identical for all values
of the `partitionSize` argument `k`: the operation always performs the
full-slot total-sum reduction and its behavior is independent of
`partition_size`. -/
theorem scalarProd_ignores_partitionSize (eng : HEngine) (m : Reg)
    (id1 id2 : String) (k k' : Int) :
    scalarProd eng m id1 id2 k = scalarProd eng m id1 id2 k' := rfl

/-- C9: `erase(h)` followed by `retrieve(h)` fails with `HandleNotFound`;
and for a handle `h'` not bound in the registry, `replace(h', c)` and
`erase(h')` do not fail and leave the registry (hence its size and every
existing entry) unchanged. -/
theorem erase_retrieve_replace_safety (m : Reg) (h h' : String) (c : Ctxt) :
    retrieve (erase m h) h = .error .HandleNotFound ∧
    (containsKey m h' = false → replace m h' c = m ∧ erase m h' = m) := by
  constructor
  · unfold retrieve erase
    by_cases hc : containsKey m h = true
    · simp [hc, atMap_eraseKey_self]
    · have hnone : atMap m h = none :=
        (containsKey_false_iff m h).1 (by simpa using hc)
      simp [hc, hnone]
  · intro hc
    constructor <;> simp [replace, erase, hc]

/-- C9 witness: the safety properties evaluated on the two-entry sample
registry with bound handle `"100"` and unbound handle `"zzz"`. -/
theorem erase_retrieve_replace_safety_witness :
    retrieve (erase demoReg "100") "100" = .error .HandleNotFound ∧
    replace demoReg "zzz" cA = demoReg ∧ erase demoReg "zzz" = demoReg := by
  have h := erase_retrieve_replace_safety demoReg "100" "zzz" cA
  exact ⟨h.1, (h.2 (by decide)).1, (h.2 (by decide)).2⟩

/-- C10: `keyGen` treats exactly the sentinel `-1` as unset for `L` and `m`:
any other value (including `0` and negatives other than `-1`) is passed
through unchanged to `buildModChain` and to the `FHEcontext` constructor
with no derivation and no validation, while `-1` triggers the heuristic
(`L`) or the `FindM` search (`m`). -/
theorem keyGen_sentinel_passthrough (extra : Int → Int → Int → Int)
    (findM : Int → Int → Int → Int → Int → Int → Int)
    (p r c w d sec L m R s : Int) :
    (L ≠ -1 → (keyGenCalls extra findM p r c w d sec L m R s).modChainL = L) ∧
    (m ≠ -1 → (keyGenCalls extra findM p r c w d sec L m R s).contextM = m) ∧
    ((keyGenCalls extra findM p r c w d sec L (-1) R s).contextM =
      findM sec (deriveL extra L p r R) c p d s) ∧
    ((keyGenCalls extra findM p r c w d sec (-1) m R s).modChainL =
      if p > 2 ∨ r > 1 then 3 * R + 3 + extra p r R else 3 * R + 3) := by
  refine ⟨fun hL => ?_, fun hm => ?_, ?_, ?_⟩ <;>
    simp [keyGenCalls, deriveL, deriveM, *]

/-- C10 witness: with `L = 0` and `m = -5` (both unequal to the sentinel),
the values reach `buildModChain` and the context constructor unchanged. -/
theorem keyGen_sentinel_passthrough_witness :
    (keyGenCalls (fun _ _ _ => 0) (fun _ _ _ _ _ _ => 7)
        2 1 3 64 0 128 0 (-5) 1 0).modChainL = 0 ∧
    (keyGenCalls (fun _ _ _ => 0) (fun _ _ _ _ _ _ => 7)
        2 1 3 64 0 128 0 (-5) 1 0).contextM = -5 := by
  have h := keyGen_sentinel_passthrough (fun _ _ _ => 0) (fun _ _ _ _ _ _ => 7)
    2 1 3 64 0 128 0 (-5) 1 0
  exact ⟨h.1 (by decide), h.2.1 (by decide)⟩

/-- C7: with `L` unset, the derived chain length is a function of `R` alone
when `p = 2` and `r = 1` (namely `3*R+3`, the same for every extra-term
heuristic); when `p > 2` or `r > 1` the extra additive term — the
floating-point expression in `p`, `r`, `R` and the fixed bit-size constant,
abstracted as `extra p r R` — is included; and the `L` handed to
`buildModChain` depends on no `keyGen` inputs other than `R`, `p`, `r`
(the remaining parameters may vary arbitrarily). -/
theorem deriveL_heuristic (extra extra2 : Int → Int → Int → Int)
    (findM : Int → Int → Int → Int → Int → Int → Int)
    (p r R c c2 w w2 d d2 sec sec2 m m2 s s2 : Int) :
    (deriveL extra (-1) 2 1 R = 3 * R + 3) ∧
    (deriveL extra (-1) 2 1 R = deriveL extra2 (-1) 2 1 R) ∧
    (p > 2 ∨ r > 1 → deriveL extra (-1) p r R = 3 * R + 3 + extra p r R) ∧
    ((keyGenCalls extra findM p r c w d sec (-1) m R s).modChainL =
      (keyGenCalls extra findM p r c2 w2 d2 sec2 (-1) m2 R s2).modChainL) := by
  refine ⟨?_, ?_, fun hpr => ?_, ?_⟩ <;>
    simp [keyGenCalls, deriveL, deriveM, *]

/-- C7 witness: at `p = 3`, `r = 1`, `R = 2` with a sample extra-term
function, the gated extra term is included. -/
theorem deriveL_heuristic_witness :
    deriveL (fun p r R => p + r + R) (-1) 3 1 2 =
      3 * 2 + 3 + ((fun p r R => p + r + R) 3 1 2 : Int) := by
  have h := deriveL_heuristic (fun p r R => p + r + R) (fun _ _ _ => 0)
    (fun _ _ _ _ _ _ => 0) 3 1 2 0 0 0 0 0 0 0 0 0 0 0 0
  exact h.2.2.1 (Or.inl (by decide))

/-- C2 counterexample: two `store` calls in the same millisecond (starting
from the empty registry, both at `ms = 5`) generate the same identifier, but
the second call does NOT overwrite the first ciphertext:
`boost::unordered_map::insert` is a no-op on an existing key, so the shared
handle stays bound to the FIRST ciphertext, refuting the claim's
"the second silently overwrites the first" and "the handle returned by the
second call is bound to the second ciphertext". -/
theorem store_collision_overwrite_cex :
    (store ([] : Reg) 5 cA).1 = (store (store ([] : Reg) 5 cA).2 5 cB).1 ∧
    atMap (store (store ([] : Reg) 5 cA).2 5 cB).2
        (store (store ([] : Reg) 5 cA).2 5 cB).1 = some cA ∧
    cA ≠ cB := by decide

/-- C2 amended: two `store` calls with coinciding millisecond timestamps
both generate the same identifier, and they do collide — but the second
call's `insert` is a no-op: the registry is left exactly as after the first
call, the shared handle stays bound to the FIRST ciphertext, and the second
ciphertext is silently dropped (the handle the second call returns refers
to the first ciphertext). -/
theorem store_collision_keeps_first (m : Reg) (ms : Nat) (c1 c2 : Ctxt)
    (hfresh : containsKey m (toString ms) = false) :
    (store m ms c1).1 = (store (store m ms c1).2 ms c2).1 ∧
    (store (store m ms c1).2 ms c2).2 = (store m ms c1).2 ∧
    atMap (store (store m ms c1).2 ms c2).2
        (store (store m ms c1).2 ms c2).1 = some c1 := by
  have hatm : atMap m (toString ms) = none :=
    (containsKey_false_iff m (toString ms)).1 hfresh
  refine ⟨rfl, ?_, ?_⟩ <;>
    simp [store, insertPair, containsKey, atMap, hatm]

/-- C2 witness: the collision behavior on a concrete fresh registry. -/
theorem store_collision_keeps_first_witness :
    (store ([] : Reg) 5 cA).1 = (store (store ([] : Reg) 5 cA).2 5 cB).1 ∧
    (store (store ([] : Reg) 5 cA).2 5 cB).2 = (store ([] : Reg) 5 cA).2 :=
  ⟨(store_collision_keeps_first [] 5 cA cB (by decide)).1,
   (store_collision_keeps_first [] 5 cA cB (by decide)).2.1⟩

/-- C4 counterexample: with `slot_count = 2`, fresh keys (empty registry,
fresh handle) and `v = [5]` of length `1 ≤ 2`, `decrypt(encrypt(v))`
returns the length-`slot_count` vector `[5, 0]`, not `v = [5]` — the
round-trip equality fails for vectors shorter than `slot_count`, because
`decrypt` always produces `nslots` values (`vector<long> res(nslots, 0)`). -/
theorem roundtrip_short_vector_cex :
    decrypt 2 (encrypt 2 ([] : Reg) 7 [5]).2 (encrypt 2 ([] : Reg) 7 [5]).1 =
      .ok [5, 0] ∧
    ([5, 0] : List Int) ≠ [5] :=
  ⟨rfl, by decide⟩

/-- C4 amended: for freshly generated keys and a fresh handle,
`decrypt(encrypt(v))` returns `v` zero-padded to length `slot_count()`
(i.e. `v.take nslots ++ replicate (nslots - |v|) 0`); the claimed equality
`decrypt(encrypt(v)) == v` holds exactly in the full-length case
`|v| = slot_count()`. -/
theorem encrypt_decrypt_roundtrip (nslots : Nat) (m : Reg) (ms : Nat)
    (v : List Int) (hfresh : containsKey m (toString ms) = false) :
    decrypt nslots (encrypt nslots m ms v).2 (encrypt nslots m ms v).1 =
      .ok (v.take nslots ++ List.replicate (nslots - v.length) 0) ∧
    (v.length = nslots →
      decrypt nslots (encrypt nslots m ms v).2 (encrypt nslots m ms v).1 =
        .ok v) := by
  have h1 : insertPair m (toString ms) (eaEncrypt nslots v) =
      (toString ms, eaEncrypt nslots v) :: m :=
    insertPair_fresh m (toString ms) (eaEncrypt nslots v) hfresh
  have hd : decrypt nslots (encrypt nslots m ms v).2 (encrypt nslots m ms v).1 =
      .ok (eaDecrypt nslots (eaEncrypt nslots v)) := by
    simp [decrypt, encrypt, store, h1, atMap]
  constructor
  · rw [hd, eaDecrypt_eaEncrypt]
  · intro hlen
    rw [hd, eaDecrypt_eaEncrypt, hlen, Nat.sub_self, List.replicate_zero,
      List.append_nil, List.take_of_length_le (le_of_eq hlen)]

/-- C4 witness: the round trip at `slot_count = 2` with the full-length
vector `[3, 4]` on a fresh registry. -/
theorem encrypt_decrypt_roundtrip_witness :
    decrypt 2 (encrypt 2 ([] : Reg) 7 [3, 4]).2 (encrypt 2 ([] : Reg) 7 [3, 4]).1 =
      .ok [3, 4] :=
  (encrypt_decrypt_roundtrip 2 [] 7 [3, 4] (by decide)).2 (by decide)

/-- C5 counterexample: when the file cannot be opened,
`assert(keyFile.is_open())` fails and `abort`s the process — `saveEnv` does
not return the failure boolean (nor any boolean) in that case, refuting
"on any I/O or serialization fault (including a file that cannot be opened)
it returns the failure boolean". -/
theorem save_unopenable_aborts_cex :
    saveEnv ⟨false, .ok, .ok, .ok⟩ = .aborted ∧
    saveEnv ⟨false, .ok, .ok, .ok⟩ ≠ .ret false := by decide

/-- C5 amended: once the output file is open, `saveEnv` communicates only a
boolean: it returns `false` whenever any serialization step throws and
`true` otherwise, and never raises an error to the caller; but a file that
cannot be opened trips the `assert`, which aborts instead of returning the
failure boolean. -/
theorem saveEnv_boolean (run : SaveRun) (hopen : run.openOk = true) :
    (saveEnv run = .ret false ∨ saveEnv run = .ret true) ∧
    ((run.writeBase = .throws ∨ run.writeContext = .throws ∨
      run.writeSecKey = .throws) → saveEnv run = .ret false) ∧
    (run.writeBase = .ok → run.writeContext = .ok → run.writeSecKey = .ok →
      saveEnv run = .ret true) := by
  obtain ⟨o, b, c, k⟩ := run
  simp only at hopen
  subst hopen
  cases b <;> cases c <;> cases k <;> simp [saveEnv]

/-- C5 witness: a run whose context serialization throws returns `false`. -/
theorem saveEnv_boolean_witness :
    saveEnv ⟨true, .ok, .throws, .ok⟩ = .ret false :=
  (saveEnv_boolean ⟨true, .ok, .throws, .ok⟩ rfl).2.1 (Or.inr (Or.inl rfl))

/-- A sample manager state for the `restoreEnv` claims. -/
def s0 : EnvState := ⟨1, 2, 2, 3, 4⟩

/-- A `restoreEnv` execution whose five deserialization steps succeed and
whose defining-polynomial extraction (`getFactorsOverZZ()[0]`) throws. -/
def badRun : RestoreRun := ⟨.ok, .ok, .ok, .ok, .ok, 10, 20, .throws, .ok, 30, 40⟩

/-- C1 counterexample: a `restoreEnv` execution in which all five
deserialization steps succeed and the defining-polynomial extraction then
throws returns failure but does NOT leave the manager unchanged: `context`
and `secretKey` were already reassigned in place (to the temporaries) while
`publicKey`, `ea` and `nslots` keep their old values — a partial in-place
mutation, refuting the claimed atomic swap. -/
theorem restore_partial_mutation_cex :
    (restoreEnv s0 badRun).1 = false ∧
    (restoreEnv s0 badRun).2 ≠ s0 ∧
    (restoreEnv s0 badRun).2.context = 10 ∧
    (restoreEnv s0 badRun).2.secretKey = 20 ∧
    (restoreEnv s0 badRun).2.ea = s0.ea ∧
    (restoreEnv s0 badRun).2.publicKey = s0.publicKey ∧
    (restoreEnv s0 badRun).2.nslots = s0.nslots := by decide

/-- C1 amended: `restoreEnv` returns failure whenever a step throws, and a
failure in any of the five deserialization steps (before the live fields
are touched) leaves `context`, `secretKey`, `publicKey`, `ea` and `nslots`
exactly as they were; but a failure in the subsequent defining-polynomial
extraction or Encoder reconstruction leaves `context` and `secretKey`
already replaced by the freshly read objects while `publicKey`, `ea` and
`nslots` retain their old values — the swap is not atomic. -/
theorem restore_fail_state (s : EnvState) (run : RestoreRun) :
    ((run.readBase = .throws ∨ run.ctorContext = .throws ∨
      run.ctorSecKey = .throws ∨ run.readContext = .throws ∨
      run.readSecKey = .throws) → restoreEnv s run = (false, s)) ∧
    (run.readBase = .ok → run.ctorContext = .ok → run.ctorSecKey = .ok →
      run.readContext = .ok → run.readSecKey = .ok →
      (run.factorStep = .throws ∨ run.eaStep = .throws) →
      restoreEnv s run =
        (false, { s with context := run.tmpContext,
                         secretKey := run.tmpSecretKey })) := by
  obtain ⟨rb, cc, cs, rc, rs, tc, ts, fs, es, ne, nn⟩ := run
  cases rb <;> cases cc <;> cases cs <;> cases rc <;> cases rs <;>
    cases fs <;> cases es <;> simp [restoreEnv]

/-- C1 witness: a failing deserialization preserves the state; the
factor-extraction failure leaves the half-updated state. -/
theorem restore_fail_state_witness :
    restoreEnv s0 ⟨.throws, .ok, .ok, .ok, .ok, 10, 20, .ok, .ok, 30, 40⟩ =
      (false, s0) ∧
    restoreEnv s0 badRun = (false, { s0 with context := 10, secretKey := 20 }) :=
  ⟨(restore_fail_state s0 ⟨.throws, .ok, .ok, .ok, .ok, 10, 20, .ok, .ok, 30, 40⟩).1
      (Or.inl rfl),
   (restore_fail_state s0 badRun).2 rfl rfl rfl rfl rfl (Or.inl rfl)⟩

/-- C3: every facade operation (`add`, `mult`, `mult3`, `scalarProd`,
`square`, `cube`, `negate`, `equalsTo`, `rotate`, `shift`) whose argument
handles include one not bound in the registry fails with `HandleNotFound`,
and the failed call leaves the registry — the set of handles and every
stored ciphertext, including the first operand's — exactly as before. -/
theorem facade_notfound_preserves_registry (eng : HEngine) (m : Reg)
    (h1 h2 h3 : String) (neg cmp : Bool) (k ps : Int) :
    ((containsKey m h1 = false ∨ containsKey m h2 = false) →
      add eng m h1 h2 neg = (.error .HandleNotFound, m)) ∧
    ((containsKey m h1 = false ∨ containsKey m h2 = false) →
      mult eng m h1 h2 = (.error .HandleNotFound, m)) ∧
    ((containsKey m h1 = false ∨ containsKey m h2 = false ∨
      containsKey m h3 = false) →
      mult3 eng m h1 h2 h3 = (.error .HandleNotFound, m)) ∧
    ((containsKey m h1 = false ∨ containsKey m h2 = false) →
      scalarProd eng m h1 h2 ps = (.error .HandleNotFound, m)) ∧
    (containsKey m h1 = false → square eng m h1 = (.error .HandleNotFound, m)) ∧
    (containsKey m h1 = false → cube eng m h1 = (.error .HandleNotFound, m)) ∧
    (containsKey m h1 = false → negate eng m h1 = (.error .HandleNotFound, m)) ∧
    ((containsKey m h1 = false ∨ containsKey m h2 = false) →
      equalsTo eng m h1 h2 cmp = (.error .HandleNotFound, m)) ∧
    (containsKey m h1 = false → rotate eng m h1 k = (.error .HandleNotFound, m)) ∧
    (containsKey m h1 = false → shift eng m h1 k = (.error .HandleNotFound, m)) := by
  simp only [containsKey_false_iff]
  refine ⟨?_, ?_, ?_, ?_, ?_, ?_, ?_, ?_, ?_, ?_⟩ <;> intro hcf <;>
  · rcases hx : atMap m h1 with _ | c1 <;>
      rcases hy : atMap m h2 with _ | c2 <;>
      rcases hz : atMap m h3 with _ | c3 <;>
      simp_all [add, mult, mult3, scalarProd, square, cube, negate,
        equalsTo, rotate, shift]

/-- C3 witness: the operations evaluated on the sample registry with the
unbound first handle `"zzz"` and the bound second/third handles. -/
theorem facade_notfound_witness :
    add sampleEngine demoReg "zzz" "200" false =
      (.error .HandleNotFound, demoReg) ∧
    mult3 sampleEngine demoReg "zzz" "200" "100" =
      (.error .HandleNotFound, demoReg) ∧
    scalarProd sampleEngine demoReg "zzz" "200" 4 =
      (.error .HandleNotFound, demoReg) ∧
    square sampleEngine demoReg "zzz" = (.error .HandleNotFound, demoReg) ∧
    equalsTo sampleEngine demoReg "zzz" "200" true =
      (.error .HandleNotFound, demoReg) ∧
    rotate sampleEngine demoReg "zzz" 1 = (.error .HandleNotFound, demoReg) := by
  have h := facade_notfound_preserves_registry sampleEngine demoReg
    "zzz" "200" "100" false true 1 4
  exact ⟨h.1 (Or.inl (by decide)), h.2.2.1 (Or.inl (by decide)),
    h.2.2.2.1 (Or.inl (by decide)), h.2.2.2.2.1 (by decide),
    h.2.2.2.2.2.2.2.1 (Or.inl (by decide)), h.2.2.2.2.2.2.2.2.1 (by decide)⟩

/-- A one-entry sample registry whose handle is the string form of
millisecond timestamp `5`. -/
def reg5 : Reg := [("5", cA)]

/-- C6 counterexample: `set` (alias) called on handle `"5"` during the same
millisecond `5` that generated it returns the ORIGINAL handle, not a fresh
distinct one, and adds no duplicate entry (the insert is a no-op): the
claim's "returns a fresh handle h' distinct from h that is bound to a
duplicate of h's ciphertext" fails at this input. -/
theorem alias_same_ms_cex :
    set reg5 "5" 5 = .ok ("5", reg5) :=
  rfl

/-- C6 amended: provided the identifier generated from the call's timestamp
is not already bound in the registry, `set` on a bound handle `h` returns a
fresh handle `h' = toString ms` distinct from `h`, bound to a duplicate of
`h`'s ciphertext; the entry at `h` is unchanged, and subsequently mutating
the entry at `h'` (as every facade operation does, through `updateAt`) does
not change the ciphertext stored at `h`. -/
theorem alias_fresh_independent (eng : HEngine) (m : Reg) (h : String)
    (ms : Nat) (c : Ctxt) (hbound : atMap m h = some c)
    (hfresh : containsKey m (toString ms) = false) :
    set m h ms = .ok (toString ms, (toString ms, c) :: m) ∧
    toString ms ≠ h ∧
    atMap ((toString ms, c) :: m) (toString ms) = some c ∧
    atMap ((toString ms, c) :: m) h = some c ∧
    (∀ f : Ctxt → Ctxt,
      atMap (updateAt ((toString ms, c) :: m) (toString ms) f) h = some c) ∧
    atMap (square eng ((toString ms, c) :: m) (toString ms)).2 h = some c := by
  have hne : toString ms ≠ h := by
    intro he
    rw [containsKey_false_iff, he, hbound] at hfresh
    exact Option.noConfusion hfresh
  have hm' : atMap ((toString ms, c) :: m) h = some c := by
    simp [atMap, hne, hbound]
  have hupd : ∀ f : Ctxt → Ctxt,
      atMap (updateAt ((toString ms, c) :: m) (toString ms) f) h = some c :=
    fun f => (atMap_updateAt_ne _ _ _ f hne).trans hm'
  refine ⟨?_, hne, ?_, hm', hupd, ?_⟩
  · simp [set, hbound, store, insertPair_fresh m (toString ms) c hfresh]
  · simp [atMap]
  · have hself : atMap ((toString ms, c) :: m) (toString ms) = some c := by
      simp [atMap]
    simp [square, hself, hupd]

/-- C6 witness: aliasing the bound handle `"100"` of the sample registry at
millisecond `5` yields the distinct handle `"5"`, and squaring the alias
leaves the original entry intact. -/
theorem alias_fresh_independent_witness :
    set demoReg "100" 5 = .ok ("5", ("5", cA) :: demoReg) ∧
    ("5" : String) ≠ "100" ∧
    atMap (square sampleEngine (("5", cA) :: demoReg) "5").2 "100" = some cA := by
  have h := alias_fresh_independent sampleEngine demoReg "100" 5 cA
    (by decide) (by decide)
  exact ⟨h.1, h.2.1, h.2.2.2.2.2⟩

end Afhel
